import Mathlib

/- Shallow embedding of the Wayland compositor core of qtile
   (`libqtile/backend/wayland/core.py`).

   Modelling conventions:
   * Machine floats (cursor coordinates, scroll deltas) only ever feed
     comparisons, additions and sign tests in the embedded code, so they are
     modelled as `Int`.
   * Opaque wlroots/pywayland handles (surfaces, outputs, modes, clients,
     window ids) are modelled as `Nat` identifiers; Python object identity
     (`is`) is modelled as equality of these identifiers.
   * Black-box library callbacks (surface-level hit testing `surface_at`,
     the backend `test` commit, the binding-table lookup
     `process_button_click`, `output_at` of the output layout, the constraint
     rectangle's `contains_point`) are modelled as function-valued fields.
   * Side effects on external collaborators (seat notifications, hooks,
     internal-window handlers) are recorded as an emitted event list `Ev`;
     seat focus fields that the code itself reads back are also tracked in
     the state. -/

namespace Wl

/-- Window variants of `libqtile.backend.wayland.window`: `Internal`,
regular `Window` (Xdg or XWayland toplevels), plain `Static`,
`layer.LayerStatic` and `xwindow.XStatic` (the latter three are all
`isinstance(_, window.Static)`). -/
inductive WKind where
  | internal
  | window
  | staticPlain
  | layerStatic
  | xstatic
deriving DecidableEq, Repr

/-- True for the three Static variants. -/
def WKind.isStatic : WKind → Bool
  | .staticPlain => true
  | .layerStatic => true
  | .xstatic => true
  | _ => false

instance : BEq WKind := ⟨fun a b => decide (a = b)⟩

instance : LawfulBEq WKind where
  eq_of_beq h := by simpa [BEq.beq] using h
  rfl := by intro a; simp [BEq.beq]

/-- Snapshot of the external group collaborator reachable from a window
(`win.group.current_window`, `win.group.screen.index`). -/
structure GroupRef where
  currentWindow : Option Nat
  screen : Option Nat
deriving DecidableEq, Repr

/-- A window as the core sees it: geometry, ownership tag, the handles of its
surface, and the black-box `surface_at` hit test. Fields that only one
variant uses (e.g. `keyboardInteractive` for layer surfaces) are read only
when `kind` selects that variant, mirroring the `isinstance` dispatch. -/
structure CWin where
  wid : Nat
  kind : WKind
  owner : Option Nat
  x : Int
  y : Int
  width : Int
  height : Int
  borderwidth : Int
  surfaceId : Option Nat
  surfaceAt : Int → Int → Option (Nat × Int × Int)
  screenIndex : Nat
  group : Option GroupRef
  keyboardInteractive : Bool
  overrideRedirect : Bool
  orWantsFocus : Bool
  icccmInputNone : Bool
  winSurfXdg : Bool
  winSurfXwl : Bool

/-- Modelled from the spec: `WindowType.belongs_to_client` lives in
`libqtile/backend/wayland/window.py`, which is not among the provided
sources. Per the spec's data model a window carries a "client-ownership
tag", and exclusive mode admits exactly the surfaces "owned by that
client", so the test is equality of the ownership tag. -/
def belongs (w : CWin) (c : Nat) : Bool :=
  w.owner == some c

/-- Seat focus state the core reads back
(`seat.keyboard_state.focused_surface`, `seat.pointer_state.focused_surface`,
`seat.destroyed`, and whether `seat.keyboard._ptr` is non-null). -/
structure Seat where
  destroyed : Bool
  keyboardFocused : Option Nat
  pointerFocused : Option Nat
  keyboardPresent : Bool
deriving DecidableEq, Repr

/-- A pointer constraint (`window.PointerConstraint`): its protocol handle,
owning surface and window, its region as a black-box containment test, and
whether it is currently active. -/
structure PC where
  cid : Nat
  surface : Nat
  windowWid : Nat
  rectContains : Int → Int → Bool
  active : Bool

/-- The per-output layer lists (`Output.layers`, indexed by
`LayerShellV1Layer`). -/
structure Layers where
  background : List CWin
  bottom : List CWin
  top : List CWin
  overlay : List CWin

/-- An `Output` as the stacking/current-output logic sees it. -/
structure COutput where
  oid : Nat
  layers : Layers

/-- Scroll axis direction (`pointer.AxisOrientation`). -/
inductive Orient where
  | vertical
  | horizontal
deriving DecidableEq, Repr

/-- Side effects issued to external collaborators, in order of emission. -/
inductive Ev where
  | idleActivity
  | relMotion (t : Nat) (dx dy udx udy : Int)
  | cursorSet
  | ptrClearFocus
  | ptrEnter (s : Nat) (sx sy : Int)
  | ptrMotion (t : Nat) (sx sy : Int)
  | internalEnter (wid : Nat) (x y : Int)
  | internalLeave (wid : Nat) (x y : Int)
  | internalMotion (wid : Nat) (x y : Int)
  | hookClientMouseEnter (wid : Nat)
  | focusScreen (i : Nat)
  | groupFocus (wid : Nat)
  | kbClearFocus
  | kbEnter (s : Nat)
  | activateSurf (s : Nat)
  | deactivateSurf (s : Nat)
  | axisNotify (t : Nat) (o : Orient) (delta dd : Int) (src : Nat)
  | offerButton (button : Nat) (pressed : Bool)
  | internalClick (wid : Nat) (x y : Int) (button : Nat) (pressed : Bool)
  | dndPosition (x y : Int)
  | buttonMotion (x y : Int)
deriving DecidableEq, Repr

/-- The mutable state of `Core` that the embedded operations touch, plus
snapshots of the external collaborators they consult. -/
structure CoreState where
  seat : Seat
  exclusiveClient : Option Nat
  hoveredWindow : Option CWin
  focusedInternal : Option Nat
  mappedWindows : List CWin
  stackedWindows : List CWin
  outputs : List COutput
  currentOutput : Option COutput
  outputLayout : List (Nat × Int × Int)
  cursorX : Int
  cursorY : Int
  pointerConstraints : List PC
  activePC : Option PC
  qtileCurrentWindow : Option Nat
  qtileCurrentScreen : Nat
  followMouseFocus : Bool
  liveDnd : Bool
  keyboardModifier : Nat
  outputAt : Int → Int → Option COutput
  processButtonClick : Nat → Nat → Int → Int → Bool
  processButtonRelease : Nat → Nat → Bool
  surfIsXdg : Nat → Bool
  surfIsXwl : Nat → Bool
  activatedSurfaces : List Nat

/-- The wid of the current hover target (`self._hovered_window`), used to
model Python `is` comparisons against it. -/
def hoveredWid (st : CoreState) : Option Nat :=
  st.hoveredWindow.map (·.wid)

/-! ## Hit testing: `Core._under_pointer` (core.py:1093-1113) -/

/-- One window's test inside the `for win in reversed(self.stacked_windows)`
loop of `_under_pointer`: an `Internal` is matched by its bounding box; any
other window first by the surface-level `surface_at` query (shifted by the
border width), then, when the border width is nonzero, by the border box
inflated on the bottom-right by twice the border width. -/
def hitWin (cx cy : Int) (w : CWin) : Option (Option Nat × Int × Int) :=
  if w.kind == WKind.internal then
    if w.x ≤ cx ∧ cx ≤ w.x + w.width ∧ w.y ≤ cy ∧ cy ≤ w.y + w.height then
      some (none, 0, 0)
    else none
  else
    match w.surfaceAt (cx - w.x - w.borderwidth) (cy - w.y - w.borderwidth) with
    | some (s, sx, sy) => some (some s, sx, sy)
    | none =>
      if w.borderwidth ≠ 0 then
        if w.x ≤ cx ∧ w.y ≤ cy
            ∧ cx ≤ w.x + w.width + 2 * w.borderwidth
            ∧ cy ≤ w.y + w.height + 2 * w.borderwidth then
          some (none, 0, 0)
        else none
      else none

/-- First hit in a topmost-first list (the loop body of `_under_pointer`). -/
def firstHit (cx cy : Int) : List CWin → Option (CWin × Option Nat × Int × Int)
  | [] => none
  | w :: ws =>
    match hitWin cx cy w with
    | some (s, sx, sy) => some (w, s, sx, sy)
    | none => firstHit cx cy ws

/-- `Core._under_pointer` over an explicit stacked list (ascending Z) and
query point: walk the list topmost-first and return the first hit. -/
def underPointerAt (stacked : List CWin) (cx cy : Int) :
    Option (CWin × Option Nat × Int × Int) :=
  firstHit cx cy stacked.reverse

/-- `Core._under_pointer`: the query point is the cursor position. -/
def under_pointer (st : CoreState) : Option (CWin × Option Nat × Int × Int) :=
  underPointerAt st.stackedWindows st.cursorX st.cursorY

/-! ## `Core.new_wid` (core.py:974-977) -/

/-- `new_wid`: `max(self.qtile.windows_map.keys(), default=0) + 1`, over the
multiset of window ids currently in the manager's window map. -/
def new_wid (keys : List Nat) : Nat :=
  keys.foldr max 0 + 1

theorem le_foldr_max (keys : List Nat) (k : Nat) (hk : k ∈ keys) :
    k ≤ keys.foldr max 0 := by
  induction keys with
  | nil => cases hk
  | cons a l ih =>
    rcases List.mem_cons.mp hk with rfl | h
    · exact le_max_left _ _
    · exact le_trans (ih h) (le_max_right _ _)

theorem foldr_max_mem (keys : List Nat) (h : keys ≠ []) :
    keys.foldr max 0 ∈ keys := by
  induction keys with
  | nil => exact absurd rfl h
  | cons a l ih =>
    cases l with
    | nil => simp
    | cons b t =>
      rcases max_choice a ((b :: t).foldr max 0) with hm | hm

      · simp only [List.foldr, hm] at *
        exact List.mem_cons_self _ _
      · simp only [List.foldr] at hm ⊢
        rw [hm]
        exact List.mem_cons_of_mem _ (ih (by simp))

/-- C10: `new_wid` returns an id strictly greater than every id in the
window map: the maximum existing id plus one (1 on an empty map), and so
never collides with an existing window. -/
theorem new_wid_spec (keys : List Nat) :
    (∀ k ∈ keys, k < new_wid keys)
    ∧ new_wid keys ∉ keys
    ∧ new_wid [] = 1
    ∧ (keys ≠ [] → ∃ m ∈ keys, new_wid keys = m + 1 ∧ ∀ k ∈ keys, k ≤ m) := by
  refine ⟨?_, ?_, rfl, ?_⟩
  · intro k hk
    exact Nat.lt_succ_of_le (le_foldr_max keys k hk)
  · intro hmem
    exact absurd (le_foldr_max keys _ hmem) (by simp [new_wid])
  · intro hne
    exact ⟨keys.foldr max 0, foldr_max_mem keys hne, rfl, le_foldr_max keys⟩

theorem new_wid_spec_witness :
    ∃ m ∈ [3, 1, 2], new_wid [3, 1, 2] = m + 1 ∧ ∀ k ∈ [3, 1, 2], k ≤ m :=
  (new_wid_spec [3, 1, 2]).2.2.2 (by decide)

/-! ## C1: `_under_pointer` returns the topmost containing window -/

theorem firstHit_eq_none_iff (cx cy : Int) (l : List CWin) :
    firstHit cx cy l = none ↔ ∀ w ∈ l, hitWin cx cy w = none := by
  induction l with
  | nil => simp [firstHit]
  | cons w ws ih =>
    cases hw : hitWin cx cy w with
    | none => simp [firstHit, hw, ih]
    | some r =>
      obtain ⟨s, sx, sy⟩ := r
      simp only [firstHit, hw]
      constructor
      · intro h; cases h
      · intro h
        exact absurd (h w (List.mem_cons_self _ _)) (by simp [hw])

theorem firstHit_eq_some_iff (cx cy : Int) (l : List CWin) (w : CWin)
    (s : Option Nat) (sx sy : Int) :
    firstHit cx cy l = some (w, s, sx, sy) ↔
      ∃ p q, l = p ++ w :: q ∧ hitWin cx cy w = some (s, sx, sy)
        ∧ ∀ w' ∈ p, hitWin cx cy w' = none := by
  induction l with
  | nil =>
    constructor
    · intro h; cases h
    · rintro ⟨p, q, hl, -, -⟩
      exact absurd hl.symm (List.append_ne_nil_of_right_ne_nil _ (by simp))
  | cons a as ih =>
    cases ha : hitWin cx cy a with
    | some r =>
      obtain ⟨s₀, sx₀, sy₀⟩ := r
      simp only [firstHit, ha]
      constructor
      · intro h
        obtain ⟨rfl, rfl, rfl, rfl⟩ :
            a = w ∧ s₀ = s ∧ sx₀ = sx ∧ sy₀ = sy := by
          injection h with h'
          refine ⟨congrArg Prod.fst h', ?_, ?_, ?_⟩
          · exact congrArg (fun z => z.2.1) h'
          · exact congrArg (fun z => z.2.2.1) h'
          · exact congrArg (fun z => z.2.2.2) h'
        exact ⟨[], as, rfl, ha, by simp⟩
      · rintro ⟨p, q, hl, hw, hp⟩
        cases p with
        | nil =>
          simp only [List.nil_append, List.cons.injEq] at hl
          obtain ⟨rfl, rfl⟩ := hl
          rw [ha] at hw
          injection hw with hw'
          obtain ⟨rfl, rfl, rfl⟩ :
              s₀ = s ∧ sx₀ = sx ∧ sy₀ = sy := by
            refine ⟨congrArg Prod.fst hw', ?_, ?_⟩
            · exact congrArg (fun z => z.2.1) hw'
            · exact congrArg (fun z => z.2.2) hw'
          rfl
        | cons b p' =>
          simp only [List.cons_append, List.cons.injEq] at hl
          obtain ⟨rfl, -⟩ := hl
          exact absurd (hp a (List.mem_cons_self _ _)) (by simp [ha])
    | none =>
      simp only [firstHit, ha]
      rw [ih]
      constructor
      · rintro ⟨p, q, hl, hw, hp⟩
        refine ⟨a :: p, q, by rw [hl, List.cons_append], hw, ?_⟩
        intro w' hw'
        rcases List.mem_cons.mp hw' with rfl | h
        · exact ha
        · exact hp w' h
      · rintro ⟨p, q, hl, hw, hp⟩
        cases p with
        | nil =>
          simp only [List.nil_append, List.cons.injEq] at hl
          obtain ⟨rfl, -⟩ := hl
          rw [ha] at hw; cases hw
        | cons b p' =>
          simp only [List.cons_append, List.cons.injEq] at hl
          obtain ⟨rfl, hl'⟩ := hl
          exact ⟨p', q, hl', hw, fun w' h => hp w' (List.mem_cons_of_mem _ h)⟩

/-- C1: the hit test over any stacked list and query point returns `none`
exactly when no stacked window contains the point (per the per-variant
containment test `hitWin`), and returns `some (w, r)` exactly when `w` is
the topmost window, in the composited ascending-Z order, whose containment
test succeeds (with result `r`); every window stacked above `w` misses the
point. In particular an overlay-layer window stacked above a regular window
containing the same point wins. -/
theorem under_pointer_topmost (stacked : List CWin) (cx cy : Int) :
    (underPointerAt stacked cx cy = none ↔ ∀ w ∈ stacked, hitWin cx cy w = none)
    ∧ (∀ w s sx sy,
        underPointerAt stacked cx cy = some (w, s, sx, sy) ↔
          ∃ below above, stacked = below ++ w :: above
            ∧ hitWin cx cy w = some (s, sx, sy)
            ∧ ∀ w' ∈ above, hitWin cx cy w' = none) := by
  constructor
  · rw [underPointerAt, firstHit_eq_none_iff]
    constructor
    · intro h w hw
      exact h w (List.mem_reverse.mpr hw)
    · intro h w hw
      exact h w (List.mem_reverse.mp hw)
  · intro w s sx sy
    rw [underPointerAt, firstHit_eq_some_iff]
    constructor
    · rintro ⟨p, q, hl, hw, hp⟩
      refine ⟨q.reverse, p.reverse, ?_, hw, ?_⟩
      · have h2 : stacked.reverse.reverse = (p ++ w :: q).reverse :=
          congrArg List.reverse hl
        rw [List.reverse_reverse] at h2
        rw [h2]
        simp [List.reverse_append]
      · intro w' hw'
        exact hp w' (List.mem_reverse.mp hw')
    · rintro ⟨b, a, hl, hw, ha⟩
      refine ⟨a.reverse, b.reverse, ?_, hw, ?_⟩
      · rw [hl]
        simp [List.reverse_append]
      · intro w' hw'
        exact ha w' (List.mem_reverse.mp hw')

/-! ## `Core.stack_windows` (core.py:1115-1135) and C6 -/

/-- The composited sequence built by `stack_windows`: the current output's
background and bottom layers below the regular windows, its top and overlay
layers above them; just the regular windows when there is no current
output. -/
def composited (co : Option COutput) (mapped : List CWin) : List CWin :=
  match co with
  | some o =>
      o.layers.background ++ o.layers.bottom ++ mapped
        ++ o.layers.top ++ o.layers.overlay
  | none => mapped

/-- `Core.stack_windows`: a restack target is first removed from
`mapped_windows` and re-appended at the end (Python `list.remove`, which
drops the first occurrence of the object — identity is modelled by `wid`;
the `ValueError` it raises when the object is absent is outside the
modelled domain), then `stacked_windows` is rebuilt from the current
output's layers around `mapped_windows`. -/
def stack_windows (st : CoreState) (restack : Option CWin) : CoreState :=
  let mapped :=
    match restack with
    | some r => (st.mappedWindows.eraseP (fun w => w.wid == r.wid)) ++ [r]
    | none => st.mappedWindows
  { st with
    mappedWindows := mapped
    stackedWindows := composited st.currentOutput mapped }

theorem eraseP_wid_first (r : CWin) (pre post : List CWin)
    (hpre : ∀ w ∈ pre, w.wid ≠ r.wid) :
    (pre ++ r :: post).eraseP (fun w => w.wid == r.wid) = pre ++ post := by
  induction pre with
  | nil => simp [List.eraseP_cons]
  | cons a p ih =>
    have ha : (a.wid == r.wid) = false := by
      simpa using hpre a (List.mem_cons_self _ _)
    simp only [List.cons_append, List.eraseP_cons, ha, cond_false]
    rw [ih (fun w hw => hpre w (List.mem_cons_of_mem _ hw))]

/-- C6: `stack_windows` with no restack target sets `stacked_windows` to
background ++ bottom ++ `mapped_windows` ++ top ++ overlay of the current
output (a copy of `mapped_windows` alone when there is none); with a
restack target present in `mapped_windows` (at its first occurrence of that
wid) the target is first moved to the topmost position of
`mapped_windows`, preserving the relative order of all other windows and
the multiset of windows, and the composited list is rebuilt around the
result. -/
theorem stack_windows_spec (st : CoreState) :
    ((stack_windows st none).mappedWindows = st.mappedWindows
      ∧ (∀ o, st.currentOutput = some o →
          (stack_windows st none).stackedWindows =
            o.layers.background ++ o.layers.bottom ++ st.mappedWindows
              ++ o.layers.top ++ o.layers.overlay)
      ∧ (st.currentOutput = none →
          (stack_windows st none).stackedWindows = st.mappedWindows))
    ∧ (∀ r pre post, st.mappedWindows = pre ++ r :: post →
        (∀ w ∈ pre, w.wid ≠ r.wid) →
          (stack_windows st (some r)).mappedWindows = pre ++ post ++ [r]
          ∧ (stack_windows st (some r)).mappedWindows.Perm st.mappedWindows
          ∧ (∀ o, st.currentOutput = some o →
              (stack_windows st (some r)).stackedWindows =
                o.layers.background ++ o.layers.bottom
                  ++ (pre ++ post ++ [r]) ++ o.layers.top ++ o.layers.overlay)
          ∧ (st.currentOutput = none →
              (stack_windows st (some r)).stackedWindows
                = pre ++ post ++ [r])) := by
  constructor
  · refine ⟨rfl, ?_, ?_⟩
    · intro o ho
      simp [stack_windows, composited, ho]
    · intro ho
      simp [stack_windows, composited, ho]
  · intro r pre post hsplit hpre
    have hmap : (stack_windows st (some r)).mappedWindows
        = pre ++ post ++ [r] := by
      simp only [stack_windows, hsplit]
      rw [eraseP_wid_first r pre post hpre]
    refine ⟨hmap, ?_, ?_, ?_⟩
    · rw [hmap, hsplit, List.append_assoc]
      exact List.Perm.append_left pre (List.perm_append_singleton r post)
    · intro o ho
      simp only [stack_windows, hsplit, composited, ho]
      rw [eraseP_wid_first r pre post hpre]
    · intro ho
      simp only [stack_windows, hsplit, composited, ho]
      rw [eraseP_wid_first r pre post hpre]

/-! ## `Core.remove_output` (core.py:1213-1218) and C9 -/

/-- The outputs list after `self.outputs.remove(output)` (first occurrence
by identity, modelled by `oid`). -/
def removedOutputs (st : CoreState) (o : COutput) : List COutput :=
  st.outputs.eraseP (fun p => p.oid == o.oid)

/-- The state after the two removals of `remove_output`, before the
current-output check. -/
def removedBase (st : CoreState) (o : COutput) : CoreState :=
  { st with
    outputs := removedOutputs st o
    outputLayout := st.outputLayout.filter (fun e => e.1 ≠ o.oid) }

/-- The current-output check of `remove_output`, split on the value of
`self._current_output`. -/
def removeOutputAux (st : CoreState) (o : COutput) : Option COutput → CoreState
  | some c =>
    if c.oid == o.oid then
      stack_windows
        { removedBase st o with currentOutput := (removedOutputs st o).head? }
        none
    else removedBase st o
  | none => removedBase st o

/-- `Core.remove_output`: drop the output from `self.outputs` (Python
`list.remove`, first occurrence by identity, modelled by `oid`) and from
the output layout; if it was the current output (`is`, modelled by `oid`),
reassign `_current_output` to the first remaining output (or none) and
rebuild the stacking order. -/
def remove_output (st : CoreState) (o : COutput) : CoreState :=
  removeOutputAux st o st.currentOutput

theorem stack_windows_currentOutput (st : CoreState) (r : Option CWin) :
    (stack_windows st r).currentOutput = st.currentOutput := rfl

theorem stack_windows_outputs (st : CoreState) (r : Option CWin) :
    (stack_windows st r).outputs = st.outputs := rfl

theorem stack_windows_outputLayout (st : CoreState) (r : Option CWin) :
    (stack_windows st r).outputLayout = st.outputLayout := rfl

theorem stack_windows_none_stacked (st : CoreState) :
    (stack_windows st none).stackedWindows
      = composited st.currentOutput st.mappedWindows := rfl

theorem eraseP_oid_not_mem (a : Nat) (l : List COutput)
    (hnd : (l.map (·.oid)).Nodup) :
    ∀ p ∈ l.eraseP (fun x => x.oid == a), p.oid = a → False := by
  induction l with
  | nil => simp
  | cons x t ih =>
    simp only [List.map_cons, List.nodup_cons, List.mem_map] at hnd
    obtain ⟨hx, ht⟩ := hnd
    by_cases hxa : x.oid = a
    · subst hxa
      rw [List.eraseP_cons_of_pos (by simp)]
      intro p hp hpa
      exact hx ⟨p, hp, hpa⟩
    · rw [List.eraseP_cons_of_neg (by simp [hxa])]
      intro p hp hpa
      rcases List.mem_cons.mp hp with rfl | hp'
      · exact hxa hpa
      · exact ih ht p hp' hpa

/-- C9: `remove_output` removes the output from the output list and the
layout; if it was the current output, `current_output` is reassigned to the
first remaining output (or none when no outputs remain) and the window
stack is rebuilt from the new current output; if it was not the current
output, `current_output` and the stack are unchanged. In either case
`current_output` never refers to the removed output afterwards. -/
theorem remove_output_spec (st : CoreState) (o : COutput)
    (hmem : o ∈ st.outputs)
    (hnd : (st.outputs.map (·.oid)).Nodup) :
    (∀ p ∈ (remove_output st o).outputs, p.oid ≠ o.oid)
    ∧ (∀ e ∈ (remove_output st o).outputLayout, e.1 ≠ o.oid)
    ∧ (∀ c, (remove_output st o).currentOutput = some c → c.oid ≠ o.oid)
    ∧ (∀ c, st.currentOutput = some c → c.oid = o.oid →
        (remove_output st o).currentOutput = (removedOutputs st o).head?
        ∧ (remove_output st o).stackedWindows
            = composited (remove_output st o).currentOutput st.mappedWindows)
    ∧ (∀ c, st.currentOutput = some c → c.oid ≠ o.oid →
        (remove_output st o).currentOutput = some c
        ∧ (remove_output st o).stackedWindows = st.stackedWindows)
    ∧ (st.currentOutput = none →
        (remove_output st o).currentOutput = none
        ∧ (remove_output st o).stackedWindows = st.stackedWindows) := by
  have houts : ∀ p ∈ removedOutputs st o, p.oid ≠ o.oid :=
    fun p hp hpa => eraseP_oid_not_mem o.oid st.outputs hnd p hp hpa
  have hbaseCur : (removedBase st o).currentOutput = st.currentOutput := rfl
  have hbaseOuts : (removedBase st o).outputs = removedOutputs st o := rfl
  have hbaseLayout : (removedBase st o).outputLayout
      = st.outputLayout.filter (fun e => e.1 ≠ o.oid) := rfl
  have hbaseStacked : (removedBase st o).stackedWindows
      = st.stackedWindows := rfl
  have hdesc : (remove_output st o).outputs = removedOutputs st o
      ∧ (remove_output st o).outputLayout
        = st.outputLayout.filter (fun e => e.1 ≠ o.oid) := by
    unfold remove_output
    cases hc : st.currentOutput with
    | none => rw [removeOutputAux]; exact ⟨hbaseOuts, hbaseLayout⟩
    | some c =>
      rw [removeOutputAux]
      by_cases h : c.oid = o.oid
      · rw [if_pos (by simp [h])]
        exact ⟨stack_windows_outputs _ _, stack_windows_outputLayout _ _⟩
      · rw [if_neg (by simp [h])]
        exact ⟨hbaseOuts, hbaseLayout⟩
  refine ⟨?_, ?_, ?_, ?_, ?_, ?_⟩
  · intro p hp
    rw [hdesc.1] at hp
    exact houts p hp
  · intro e he
    rw [hdesc.2] at he
    exact of_decide_eq_true (List.mem_filter.mp he).2
  · intro c hc
    unfold remove_output at hc
    cases hcur : st.currentOutput with
    | none =>
      rw [hcur, removeOutputAux, hbaseCur, hcur] at hc
      cases hc
    | some c₀ =>
      rw [hcur, removeOutputAux] at hc
      by_cases h : c₀.oid = o.oid
      · rw [if_pos (by simp [h]), stack_windows_currentOutput] at hc
        have hc' : (removedOutputs st o).head? = some c := hc
        exact houts c (List.mem_of_mem_head? hc')
      · rw [if_neg (by simp [h]), hbaseCur, hcur] at hc
        injection hc with hc
        subst hc
        exact h
  · intro c hc hco
    unfold remove_output
    rw [hc, removeOutputAux, if_pos (by simp [hco])]
    refine ⟨rfl, ?_⟩
    rw [stack_windows_none_stacked]
    rfl
  · intro c hc hco
    unfold remove_output
    rw [hc, removeOutputAux, if_neg (by simp [hco]), hbaseCur, hbaseStacked]
    exact ⟨hc, rfl⟩
  · intro hc
    unfold remove_output
    rw [hc, removeOutputAux, hbaseCur, hbaseStacked]
    exact ⟨hc, rfl⟩

/-! ## `Core.focus_window` (core.py:979-1053) and C3 -/

/-- Clear the seat's keyboard focus (`seat.keyboard_clear_focus`). -/
def clearKb (st : CoreState) : CoreState :=
  { st with seat := { st.seat with keyboardFocused := none } }

/-- Deactivation of the previously focused surface in `focus_window`: when
it is an xdg or xwayland surface and is not the target window's own
surface, its activated flag is dropped (both the surface and its
foreign-toplevel handle are told; one event stands for both). -/
def deactivatePrev (st : CoreState) (win : Option CWin) (p : Nat) :
    CoreState × List Ev :=
  if st.surfIsXdg p then
    if win.isNone || (win.bind (·.surfaceId)) ≠ some p then
      ({ st with activatedSurfaces := st.activatedSurfaces.filter (· ≠ p) },
        [.deactivateSurf p])
    else (st, [])
  else if st.surfIsXwl p then
    if win.isNone || (win.bind (·.surfaceId)) ≠ some p then
      ({ st with activatedSurfaces := st.activatedSurfaces.filter (· ≠ p) },
        [.deactivateSurf p])
    else (st, [])
  else (st, [])

/-- Activation of the target window in `focus_window` (surface and
foreign-toplevel handle; one event stands for both). -/
def activateWin (st : CoreState) (w : CWin) (s : Nat) : CoreState × List Ev :=
  if (st.surfIsXdg s && w.winSurfXdg) || (st.surfIsXwl s && w.winSurfXwl) then
    ({ st with activatedSurfaces := s :: st.activatedSurfaces },
      [.activateSurf s])
  else (st, [])

/-- The body of `focus_window` past the exclusive-client block: internal
targets grab `focused_internal`; the surface argument defaults to the
window's surface; a previously focused internal is dropped; non-interactive
layer surfaces and input-refusing XStatic surfaces are ignored; an
unchanged target is a no-op; otherwise the previous surface is
deactivated, then either focus is cleared (no target/surface) or the
target is activated and the keyboard enters it. -/
def focusWindowMain (st : CoreState) (win : Option CWin)
    (surfaceArg : Option Nat) (enter : Bool) : CoreState × List Ev :=
  if (match win with | some w => w.kind == WKind.internal | none => false) then
    ({ (clearKb st) with focusedInternal := win.map (·.wid) }, [.kbClearFocus])
  else
    let surface := match surfaceArg with
      | some s => some s
      | none => match win with | some w => w.surfaceId | none => none
    let st := if st.focusedInternal.isSome then
        { st with focusedInternal := none } else st
    if (match win with
        | some w => (w.kind == WKind.layerStatic && !w.keyboardInteractive)
            || (w.kind == WKind.xstatic
                && ((w.overrideRedirect && !w.orWantsFocus)
                    || w.icccmInputNone))
        | none => false) then (st, [])
    else
      let previous := st.seat.keyboardFocused
      if previous == surface then (st, [])
      else
        let dp := match previous with
          | some p => deactivatePrev st win p
          | none => (st, [])
        match win, surface with
        | some w, some s =>
          let aw := activateWin dp.1 w s
          if enter && st.seat.keyboardPresent then
            ({ aw.1 with seat := { aw.1.seat with keyboardFocused := some s } },
              dp.2 ++ aw.2 ++ [.kbEnter s])
          else (aw.1, dp.2 ++ aw.2)
        | _, _ => (clearKb dp.1, dp.2 ++ [.kbClearFocus])

/-- `Core.focus_window`: bail out on a destroyed seat; under
exclusive-client mode clear focus when there is no target and refuse
internal or unowned targets; otherwise run the main transition. -/
def focus_window (st : CoreState) (win : Option CWin)
    (surfaceArg : Option Nat) (enter : Bool) : CoreState × List Ev :=
  if st.seat.destroyed then (st, [])
  else
    match st.exclusiveClient with
    | some c =>
      (match win with
       | none => (clearKb st, [.kbClearFocus])
       | some w =>
         if w.kind == WKind.internal || !(belongs w c) then (st, [])
         else focusWindowMain st (some w) surfaceArg enter)
    | none => focusWindowMain st win surfaceArg enter

/-- C3: with exclusive-client mode active (and a live seat), `focus_window`
on a target that is internal or not owned by the exclusive client is a
strict no-op on the state (keyboard focus and activation included) and
emits nothing, while `focus_window` with no target clears keyboard focus
and changes nothing else. -/
theorem focus_window_exclusive (st : CoreState) (c : Nat)
    (hseat : st.seat.destroyed = false)
    (hex : st.exclusiveClient = some c) :
    (∀ w surfaceArg enter,
        (w.kind = WKind.internal ∨ belongs w c = false) →
          focus_window st (some w) surfaceArg enter = (st, []))
    ∧ (∀ surfaceArg enter,
        focus_window st none surfaceArg enter
          = ({ st with seat := { st.seat with keyboardFocused := none } },
              [Ev.kbClearFocus])) := by
  constructor
  · intro w surfaceArg enter hw
    unfold focus_window
    rw [hseat, if_neg (by simp), hex]
    have hcond : (w.kind == WKind.internal || !(belongs w c)) = true := by
      rcases hw with h | h
      · simp [h]
      · simp [h]
    show (if (w.kind == WKind.internal || !(belongs w c)) = true
        then (st, ([] : List Ev))
        else focusWindowMain st (some w) surfaceArg enter) = (st, [])
    rw [if_pos hcond]
  · intro surfaceArg enter
    have hstep : focus_window st none surfaceArg enter
        = (clearKb st, [Ev.kbClearFocus]) := by
      unfold focus_window
      rw [hseat, if_neg (by simp), hex]
    rw [hstep]
    rfl

theorem focus_window_exclusive_witness :
    focus_window
        { seat := ⟨false, some 5, none, true⟩
          exclusiveClient := some 1
          hoveredWindow := none
          focusedInternal := none
          mappedWindows := []
          stackedWindows := []
          outputs := []
          currentOutput := none
          outputLayout := []
          cursorX := 0
          cursorY := 0
          pointerConstraints := []
          activePC := none
          qtileCurrentWindow := none
          qtileCurrentScreen := 0
          followMouseFocus := true
          liveDnd := false
          keyboardModifier := 0
          outputAt := fun _ _ => none
          processButtonClick := fun _ _ _ _ => false
          processButtonRelease := fun _ _ => false
          surfIsXdg := fun _ => false
          surfIsXwl := fun _ => false
          activatedSurfaces := [] }
        (some
          { wid := 7, kind := WKind.window, owner := some 2, x := 0, y := 0
            width := 10, height := 10, borderwidth := 0, surfaceId := some 3
            surfaceAt := fun _ _ => none, screenIndex := 0, group := none
            keyboardInteractive := false, overrideRedirect := false
            orWantsFocus := false, icccmInputNone := false
            winSurfXdg := true, winSurfXwl := false })
        none true
      = ({ seat := ⟨false, some 5, none, true⟩
           exclusiveClient := some 1
           hoveredWindow := none
           focusedInternal := none
           mappedWindows := []
           stackedWindows := []
           outputs := []
           currentOutput := none
           outputLayout := []
           cursorX := 0
           cursorY := 0
           pointerConstraints := []
           activePC := none
           qtileCurrentWindow := none
           qtileCurrentScreen := 0
           followMouseFocus := true
           liveDnd := false
           keyboardModifier := 0
           outputAt := fun _ _ => none
           processButtonClick := fun _ _ _ _ => false
           processButtonRelease := fun _ _ => false
           surfIsXdg := fun _ => false
           surfIsXwl := fun _ => false
           activatedSurfaces := [] }, []) :=
  (focus_window_exclusive _ 1 rfl rfl).1 _ none true (Or.inr rfl)

/-! ## `Core._focus_pointer` (core.py:760-859) and C4 -/

/-- Set the seat's pointer focus field (`pointer_notify_enter` /
`pointer_notify_clear_focus` update `pointer_state.focused_surface`). -/
def setPtrFocus (st : CoreState) (o : Option Nat) : CoreState :=
  { st with seat := { st.seat with pointerFocused := o } }

/-- The exclusive-client gate of the pointer paths: true when exclusive
mode is active and the window is internal or not owned by the exclusive
client. -/
def exclLocked (st : CoreState) (w : CWin) : Bool :=
  match st.exclusiveClient with
  | some c => w.kind == WKind.internal || !(belongs w c)
  | none => false

/-- Leaving the previous hover target when the pointer enters a (different)
internal window: a leave handler call for an internal, a cursor reset and
pointer-focus clear for a client window whose surface held pointer focus. -/
def internalSwitchFrom (st : CoreState) (h : CWin) (cx cy : Int)
    (motion : Option Nat) : CoreState × List Ev :=
  if h.kind == WKind.internal then
    (st, match motion with
      | some _ => [.internalLeave h.wid (cx - h.x) (cy - h.y)]
      | none => [])
  else if st.seat.pointerFocused.isSome then
    (setPtrFocus st none, [.cursorSet, .ptrClearFocus])
  else (st, [])

/-- The `isinstance(win, window.Internal)` path of `_focus_pointer`. -/
def focusPointerInternal (st : CoreState) (cx cy : Int) (motion : Option Nat)
    (win : CWin) : CoreState × List Ev :=
  match st.hoveredWindow with
  | some h =>
    if h.wid == win.wid then
      (st, match motion with
        | some _ => [.internalMotion win.wid (cx - h.x) (cy - h.y)]
        | none => [])
    else
      let sw := internalSwitchFrom st h cx cy motion
      ({ sw.1 with hoveredWindow := some win },
        sw.2 ++ [.internalEnter win.wid cx cy])
  | none =>
    ({ st with hoveredWindow := some win }, [.internalEnter win.wid cx cy])

/-- The hover hook / follow-mouse-focus block of `_focus_pointer`, run when
the hit window is not the manager's current window. -/
def hoverHooks (st : CoreState) (motion : Option Nat) (win : CWin) :
    List Ev :=
  if st.qtileCurrentWindow == some win.wid then []
  else if win.kind.isStatic then
    (if hoveredWid st == some win.wid then []
     else [.hookClientMouseEnter win.wid])
    ++ (match motion with
        | some _ =>
          if st.followMouseFocus then [.focusScreen win.screenIndex] else []
        | none => [])
  else
    [.hookClientMouseEnter win.wid]
    ++ (match motion with
        | some _ =>
          if st.followMouseFocus then
            (match win.group with
             | some g =>
               (if g.currentWindow ≠ some win.wid then [.groupFocus win.wid]
                else [])
               ++ (match g.screen with
                   | some scr =>
                     if st.qtileCurrentScreen ≠ scr then [.focusScreen scr]
                     else []
                   | none => [])
             | none => [])
          else []
        | none => [])

/-- The client-window path of `_focus_pointer`: pointer enter/motion into a
surface, or cursor reset and pointer-focus clear on the border, then the
hover hooks, then the hover target update. -/
def focusPointerClient (st : CoreState) (cx cy : Int) (motion : Option Nat)
    (win : CWin) (surface : Option Nat) (sx sy : Int) : CoreState × List Ev :=
  let step : CoreState × List Ev :=
    match surface with
    | some s =>
      (setPtrFocus st (some s),
        [.ptrEnter s sx sy]
          ++ (match motion with
              | some t => [Ev.ptrMotion t sx sy]
              | none => []))
    | none =>
      if st.seat.pointerFocused.isSome then
        (setPtrFocus st none, [.cursorSet, .ptrClearFocus])
      else (st, [])
  ({ step.1 with hoveredWindow := some win },
    step.2 ++ hoverHooks step.1 motion win)

/-- The no-window path of `_focus_pointer`: leave the previous internal, or
reset the cursor and clear pointer focus after leaving a client window. -/
def focusPointerNone (st : CoreState) (cx cy : Int) : CoreState × List Ev :=
  match st.hoveredWindow with
  | some h =>
    if h.kind == WKind.internal then
      ({ st with hoveredWindow := none },
        [.internalLeave h.wid (cx - h.x) (cy - h.y)])
    else
      ({ (setPtrFocus st none) with hoveredWindow := none },
        [.cursorSet, .ptrClearFocus])
  | none => (st, [])

/-- The found-window path of `_focus_pointer`: the exclusive-client gate,
then the internal or client path. -/
def focusPointerFound (st : CoreState) (cx cy : Int) (motion : Option Nat)
    (win : CWin) (surface : Option Nat) (sx sy : Int) : CoreState × List Ev :=
  if exclLocked st win then
    if hoveredWid st == some win.wid then (st, [])
    else
      ({ (setPtrFocus st none) with hoveredWindow := some win },
        [.cursorSet, .ptrClearFocus])
  else if win.kind == WKind.internal then
    focusPointerInternal st cx cy motion win
  else
    focusPointerClient st cx cy motion win surface sx sy

/-- `Core._focus_pointer`: hit-test at the cursor position and dispatch on
the result. -/
def focus_pointer (st : CoreState) (cx cy : Int) (motion : Option Nat) :
    CoreState × List Ev :=
  match under_pointer st with
  | some (win, surface, sx, sy) =>
    focusPointerFound st cx cy motion win surface sx sy
  | none => focusPointerNone st cx cy

/-- C4 (amended): with exclusive-client mode active and the window under
the pointer internal or unowned by the exclusive client, `_focus_pointer`
never issues a pointer-enter or pointer-motion notification (its emissions
are at most the cursor reset and the focus clear); when the hit window
differs from the previous hover target it clears the seat's pointer focus,
restores the default cursor image and records the new hover target, and
when the hit window already is the hover target it does nothing at all. -/
theorem focus_pointer_exclusive (st : CoreState) (c : Nat) (cx cy : Int)
    (motion : Option Nat) (win : CWin) (surface : Option Nat) (sx sy : Int)
    (hex : st.exclusiveClient = some c)
    (hup : under_pointer st = some (win, surface, sx, sy))
    (hlock : win.kind = WKind.internal ∨ belongs win c = false) :
    ((focus_pointer st cx cy motion).2 = []
      ∨ (focus_pointer st cx cy motion).2 = [Ev.cursorSet, Ev.ptrClearFocus])
    ∧ (hoveredWid st ≠ some win.wid →
        focus_pointer st cx cy motion
          = ({ (setPtrFocus st none) with hoveredWindow := some win },
              [Ev.cursorSet, Ev.ptrClearFocus]))
    ∧ (hoveredWid st = some win.wid →
        focus_pointer st cx cy motion = (st, [])) := by
  have hgate : exclLocked st win = true := by
    unfold exclLocked
    rw [hex]
    rcases hlock with h | h
    · simp [h]
    · simp [h]
  have hred : focus_pointer st cx cy motion
      = focusPointerFound st cx cy motion win surface sx sy := by
    unfold focus_pointer
    rw [hup]
  by_cases hhov : hoveredWid st = some win.wid
  · have hfin : focus_pointer st cx cy motion = (st, []) := by
      rw [hred]
      unfold focusPointerFound
      rw [hgate, if_pos (by simp), if_pos (by simp [hhov])]
    refine ⟨Or.inl (by rw [hfin]), ?_, fun _ => hfin⟩
    intro hne
    exact absurd hhov hne
  · have hfin : focus_pointer st cx cy motion
        = ({ (setPtrFocus st none) with hoveredWindow := some win },
            [Ev.cursorSet, Ev.ptrClearFocus]) := by
      rw [hred]
      unfold focusPointerFound
      rw [hgate, if_pos (by simp),
        if_neg (by simp [hhov])]
    refine ⟨Or.inr (by rw [hfin]), fun _ => hfin, ?_⟩
    intro heq
    exact absurd heq hhov

/-- A concrete window fixture: a regular client window owned by client 2
whose surface query always answers surface 9. -/
def exWin4 : CWin :=
  { wid := 4, kind := WKind.window, owner := some 2, x := 0, y := 0
    width := 100, height := 100, borderwidth := 0, surfaceId := some 9
    surfaceAt := fun _ _ => some (9, 0, 0), screenIndex := 0, group := none
    keyboardInteractive := false, overrideRedirect := false
    orWantsFocus := false, icccmInputNone := false
    winSurfXdg := true, winSurfXwl := false }

/-- A concrete core state: exclusive client 1, `exWin4` stacked and under
the cursor and already the hover target, with surface 7 holding pointer
focus. -/
def exC4 : CoreState :=
  { seat := ⟨false, none, some 7, true⟩
    exclusiveClient := some 1
    hoveredWindow := some exWin4
    focusedInternal := none
    mappedWindows := [exWin4]
    stackedWindows := [exWin4]
    outputs := []
    currentOutput := none
    outputLayout := []
    cursorX := 0
    cursorY := 0
    pointerConstraints := []
    activePC := none
    qtileCurrentWindow := none
    qtileCurrentScreen := 0
    followMouseFocus := true
    liveDnd := false
    keyboardModifier := 0
    outputAt := fun _ _ => none
    processButtonClick := fun _ _ _ _ => false
    processButtonRelease := fun _ _ => false
    surfIsXdg := fun _ => true
    surfIsXwl := fun _ => false
    activatedSurfaces := [] }

/-- The same state with no previous hover target. -/
def exC4b : CoreState := { exC4 with hoveredWindow := none }

theorem focus_pointer_exclusive_witness :
    focus_pointer exC4b 0 0 none
      = ({ (setPtrFocus exC4b none) with hoveredWindow := some exWin4 },
          [Ev.cursorSet, Ev.ptrClearFocus]) :=
  (focus_pointer_exclusive exC4b 1 0 0 none exWin4 (some 9) 0 0 rfl rfl
      (Or.inr rfl)).2.1 (by decide)

/-- C4, counterexample to the claim as stated: in `exC4` the window under
the pointer is unowned by the exclusive client, yet because it already is
the hover target, `_focus_pointer` returns without emitting anything — the
seat's pointer focus stays on surface 7 and the cursor image is not
restored. -/
theorem focus_pointer_exclusive_cex :
    exC4.exclusiveClient = some 1
    ∧ under_pointer exC4 = some (exWin4, some 9, 0, 0)
    ∧ belongs exWin4 1 = false
    ∧ focus_pointer exC4 0 0 none = (exC4, [])
    ∧ (focus_pointer exC4 0 0 none).1.seat.pointerFocused = some 7 :=
  ⟨rfl, rfl, rfl, rfl, rfl⟩

/-! ## `Core._process_cursor_button` (core.py:861-885),
`Core._process_cursor_motion` (core.py:737-758),
`Core._on_cursor_motion` (core.py:452-477, C7) and
`Core._on_cursor_axis` (core.py:412-430, C8) -/

/-- A relative pointer motion event (`pointer.PointerEventMotion`). -/
structure MotionEv where
  time : Nat
  dx : Int
  dy : Int
  udx : Int
  udy : Int

/-- A scroll/axis event (`pointer.PointerEventAxis`). -/
structure AxisEv where
  time : Nat
  orientation : Orient
  delta : Int
  deltaDiscrete : Int
  source : Nat

/-- The relay of a button event to a hovered internal window inside
`_process_cursor_button`. -/
def internalClickEvs (st : CoreState) (button : Nat) (pressed : Bool) :
    List Ev :=
  match st.hoveredWindow with
  | some h =>
    if h.kind == WKind.internal then
      [.internalClick h.wid (st.cursorX - h.x) (st.cursorY - h.y)
        button pressed]
    else []
  | none => []

/-- `Core._process_cursor_button`: offer the button to the manager's
binding table (`process_button_click` / `process_button_release`) and relay
it to a hovered internal window; returns whether a binding claimed it. -/
def process_cursor_button (st : CoreState) (button : Nat) (pressed : Bool) :
    Bool × List Ev :=
  if pressed then
    (st.processButtonClick button st.keyboardModifier st.cursorX st.cursorY,
      Ev.offerButton button true :: internalClickEvs st button true)
  else
    (st.processButtonRelease button st.keyboardModifier,
      Ev.offerButton button false :: internalClickEvs st button false)

/-- `Core._process_cursor_motion`: report button motion to the manager
(suppressed under an exclusive client), switch the current output when the
cursor crossed into another output (identity modelled by `oid`) and restack,
update a live drag-and-drop, then run `_focus_pointer` with the motion
timestamp. -/
def process_cursor_motion (st : CoreState) (t : Nat) (cx cy : Int) :
    CoreState × List Ev :=
  let evs0 : List Ev :=
    if st.exclusiveClient = none then [.buttonMotion cx cy] else []
  let st1 :=
    if 1 < st.outputs.length then
      match st.outputAt cx cy with
      | some o =>
        if (st.currentOutput.map (·.oid)) ≠ some o.oid then
          stack_windows { st with currentOutput := some o } none
        else st
      | none => st
    else st
  let evs1 : List Ev := if st1.liveDnd then [.dndPosition cx cy] else []
  let fp := focus_pointer st1 cx cy (some t)
  (fp.1, evs0 ++ evs1 ++ fp.2)

/-- Moving the cursor by the event delta and processing the new position
(the unconstrained tail of `_on_cursor_motion`). -/
def cursorMoveAndProcess (st : CoreState) (e : MotionEv) :
    CoreState × List Ev :=
  let st1 := { st with
    cursorX := st.cursorX + e.dx
    cursorY := st.cursorY + e.dy }
  process_cursor_motion st1 e.time st1.cursorX st1.cursorY

/-- The constraint check of `_on_cursor_motion`, split on
`self.active_pointer_constraint`; the idle notification and the
relative-motion notification have already been issued when the check
runs, so both branches emit them first. -/
def onCursorMotionAux (st : CoreState) (e : MotionEv) :
    Option PC → CoreState × List Ev
  | some c =>
    if !(c.rectContains (st.cursorX + e.dx) (st.cursorY + e.dy)) then
      (st, [.idleActivity, .relMotion (e.time * 1000) e.dx e.dy e.udx e.udy])
    else
      ((cursorMoveAndProcess st e).1,
        [.idleActivity, .relMotion (e.time * 1000) e.dx e.dy e.udx e.udy]
          ++ (cursorMoveAndProcess st e).2)
  | none =>
    ((cursorMoveAndProcess st e).1,
      [.idleActivity, .relMotion (e.time * 1000) e.dx e.dy e.udx e.udy]
        ++ (cursorMoveAndProcess st e).2)

/-- `Core._on_cursor_motion`: notify idle activity, always send the
relative-motion notification, then either drop the event (when an active
constraint excludes the target position) or move the cursor and process
the motion. -/
def on_cursor_motion (st : CoreState) (e : MotionEv) : CoreState × List Ev :=
  onCursorMotionAux st e st.activePC

/-- C7: while a pointer constraint is active, a relative motion whose
target position falls outside the constraint's rectangle leaves the state
(cursor position included) unchanged and performs no hover/focus motion
processing: only the idle notification and the relative-pointer
notification are emitted, and the cursor is never clamped to the
boundary. -/
theorem on_cursor_motion_constrained (st : CoreState) (e : MotionEv) (c : PC)
    (hc : st.activePC = some c)
    (hout : c.rectContains (st.cursorX + e.dx) (st.cursorY + e.dy) = false) :
    on_cursor_motion st e
      = (st, [Ev.idleActivity,
          Ev.relMotion (e.time * 1000) e.dx e.dy e.udx e.udy]) := by
  unfold on_cursor_motion
  rw [hc, onCursorMotionAux, if_pos (by simp [hout])]

/-- A concrete pointer constraint whose rectangle contains nothing. -/
def exPC : PC :=
  { cid := 1, surface := 9, windowWid := 4
    rectContains := fun _ _ => false, active := true }

/-- A concrete state with `exPC` active. -/
def exC7 : CoreState := { exC4 with activePC := some exPC }

theorem on_cursor_motion_constrained_witness :
    on_cursor_motion exC7 ⟨10, 3, 4, 3, 4⟩
      = (exC7, [Ev.idleActivity, Ev.relMotion 10000 3 4 3 4]) :=
  on_cursor_motion_constrained exC7 ⟨10, 3, 4, 3, 4⟩ exPC rfl rfl

/-- The synthetic button index of a scroll event: vertical maps a positive
(downward) delta to 5 and a negative (upward) delta to 4; horizontal maps
a positive delta to 7 and a negative one to 6. -/
def axisButton (e : AxisEv) : Nat :=
  if e.orientation == Orient.vertical then
    (if 0 < e.delta then 5 else 4)
  else (if 0 < e.delta then 7 else 6)

/-- `Core._on_cursor_axis`: a nonzero-delta scroll with no exclusive client
is mapped to its synthetic button and offered to the binding table via
`_process_cursor_button`; when nothing claimed it (and always on zero
delta or under an exclusive client) the seat receives the native axis
notification with the event's fields. -/
def on_cursor_axis (st : CoreState) (e : AxisEv) : List Ev :=
  if e.delta ≠ 0 ∧ st.exclusiveClient = none then
    if (process_cursor_button st (axisButton e) true).1 then
      (process_cursor_button st (axisButton e) true).2
    else
      (process_cursor_button st (axisButton e) true).2
        ++ [.axisNotify e.time e.orientation e.delta e.deltaDiscrete e.source]
  else
    [.axisNotify e.time e.orientation e.delta e.deltaDiscrete e.source]

/-- C8: a scroll with nonzero delta and no exclusive client is first
offered to the binding table as the synthetic button 5/4 (vertical
down/up) or 7/6 (horizontal positive/negative); whenever the binding table
does not claim the offered synthetic button — and always in the zero-delta
and exclusive-client cases — the event ends in a native axis notification
carrying the original time, orientation, delta, discrete delta and
source. -/
theorem on_cursor_axis_spec (st : CoreState) (e : AxisEv) :
    (e.delta ≠ 0 → st.exclusiveClient = none →
        ((e.orientation = Orient.vertical → 0 < e.delta →
            (on_cursor_axis st e).head? = some (Ev.offerButton 5 true))
        ∧ (e.orientation = Orient.vertical → e.delta < 0 →
            (on_cursor_axis st e).head? = some (Ev.offerButton 4 true))
        ∧ (e.orientation = Orient.horizontal → 0 < e.delta →
            (on_cursor_axis st e).head? = some (Ev.offerButton 7 true))
        ∧ (e.orientation = Orient.horizontal → e.delta < 0 →
            (on_cursor_axis st e).head? = some (Ev.offerButton 6 true))))
    ∧ (st.processButtonClick (axisButton e) st.keyboardModifier st.cursorX
          st.cursorY = false →
        (on_cursor_axis st e).getLast?
          = some (Ev.axisNotify e.time e.orientation e.delta
              e.deltaDiscrete e.source))
    ∧ ((e.delta = 0 ∨ st.exclusiveClient ≠ none) →
        on_cursor_axis st e
          = [Ev.axisNotify e.time e.orientation e.delta
              e.deltaDiscrete e.source]) := by
  have hhead : ∀ (hcond : e.delta ≠ 0 ∧ st.exclusiveClient = none),
      (on_cursor_axis st e).head?
        = some (Ev.offerButton (axisButton e) true) := by
    intro hcond
    unfold on_cursor_axis
    rw [if_pos hcond]
    by_cases h : (process_cursor_button st (axisButton e) true).1 = true
    · rw [if_pos h]
      rfl
    · rw [if_neg h]
      rfl
  refine ⟨?_, ?_, ?_⟩
  · intro hd hex
    refine ⟨?_, ?_, ?_, ?_⟩ <;> intro ho hs
    · have hb : axisButton e = 5 := by simp [axisButton, ho, hs]
      rw [hhead ⟨hd, hex⟩, hb]
    · have hnot : ¬ (0 : Int) < e.delta := by omega
      have hb : axisButton e = 4 := by simp [axisButton, ho, hnot]
      rw [hhead ⟨hd, hex⟩, hb]
    · have hb : axisButton e = 7 := by simp [axisButton, ho, hs]
      rw [hhead ⟨hd, hex⟩, hb]
    · have hnot : ¬ (0 : Int) < e.delta := by omega
      have hb : axisButton e = 6 := by simp [axisButton, ho, hnot]
      rw [hhead ⟨hd, hex⟩, hb]
  · intro hclaim
    unfold on_cursor_axis
    by_cases hcond : e.delta ≠ 0 ∧ st.exclusiveClient = none
    · rw [if_pos hcond]
      have h1 : (process_cursor_button st (axisButton e) true).1 = false :=
        hclaim
      rw [if_neg (by rw [h1]; simp)]
      exact List.getLast?_concat _
    · rw [if_neg hcond]
      rfl
  · intro hor
    unfold on_cursor_axis
    have hcond : ¬(e.delta ≠ 0 ∧ st.exclusiveClient = none) := by
      rcases hor with h | h
      · exact fun hc => hc.1 h
      · exact fun hc => h hc.2
    rw [if_neg hcond]

/-! ## `Core._on_new_pointer_constraint` (core.py:556-566) and C5 -/

/-- Modelled from the spec: `PointerConstraint.disable` lives in
`libqtile/backend/wayland/window.py`, which is not among the provided
sources. Per the spec a previously active constraint "is disabled": its
active flag is dropped and it stops being the core's active constraint. -/
def pcDisable (st : CoreState) (cid : Nat) : CoreState :=
  { st with
    pointerConstraints := st.pointerConstraints.map fun p =>
      if p.cid == cid then { p with active := false } else p
    activePC := match st.activePC with
      | some a => if a.cid == cid then none else some a
      | none => none }

/-- Modelled from the spec: `PointerConstraint.enable` lives in
`libqtile/backend/wayland/window.py`, which is not among the provided
sources. Per the spec the new constraint "becomes active": its active flag
is set and it becomes the core's active constraint. -/
def pcEnable (st : CoreState) (c : PC) : CoreState :=
  { st with
    pointerConstraints := st.pointerConstraints.map fun p =>
      if p.cid == c.cid then { c with active := true } else p
    activePC := some { c with active := true } }

/-- Disabling the previously active constraint, if any (the
`if self.active_pointer_constraint:` check before `constraint.enable()`). -/
def disableActive (st1 : CoreState) : Option PC → CoreState
  | some a => pcDisable st1 a.cid
  | none => st1

/-- Construction of a `PC` record (the `window.PointerConstraint(self,
wlr_constraint)` wrapper), with an explicit active flag. -/
def mkPC (cid surface windowWid : Nat) (rect : Int → Int → Bool)
    (act : Bool) : PC :=
  ⟨cid, surface, windowWid, rect, act⟩

/-- `Core._on_new_pointer_constraint`: record the new constraint into
`pointer_constraints`; when the seat's pointer focus is on the
constraint's surface, disable any previously active constraint, then
enable the new one. -/
def on_new_pointer_constraint (st : CoreState) (cid surface windowWid : Nat)
    (rect : Int → Int → Bool) : CoreState :=
  let c : PC := mkPC cid surface windowWid rect false
  let st1 := { st with pointerConstraints := st.pointerConstraints ++ [c] }
  if st1.seat.pointerFocused == some surface then
    pcEnable (disableActive st1 st1.activePC) c
  else st1

/-- The number of active constraints in the state. -/
def activeCount (st : CoreState) : Nat :=
  (st.pointerConstraints.filter (·.active)).length

/-- Consistency of an active-constraint singleton with a constraint set:
a recorded active constraint is in the set with its flag up and is the
only one flagged active; with no recorded active constraint no flag is
up. -/
def pcConsistentOn (l : List PC) : Option PC → Prop
  | some a => a ∈ l ∧ a.active = true ∧ ∀ p ∈ l, p.active = true → p.cid = a.cid
  | none => ∀ p ∈ l, p.active = false

/-- Consistency of the state's active-constraint singleton. -/
def pcConsistent (st : CoreState) : Prop :=
  pcConsistentOn st.pointerConstraints st.activePC

theorem length_le_one_of_all_eq {α : Type} (m : List α) (v : α)
    (hnd : m.Nodup) (hall : ∀ x ∈ m, x = v) : m.length ≤ 1 := by
  match m with
  | [] => simp
  | [x] => simp
  | x :: y :: t =>
    have hx : x = v := hall x (List.mem_cons_self _ _)
    have hy : y = v := hall y (List.mem_cons_of_mem _ (List.mem_cons_self _ _))
    rw [List.nodup_cons] at hnd
    exact absurd (by rw [hx, hy]; exact List.mem_cons_self _ _) hnd.1

theorem activeCountOn_le_one (l : List PC) (oa : Option PC)
    (hnd : (l.map (·.cid)).Nodup)
    (hcons : pcConsistentOn l oa) : (l.filter (·.active)).length ≤ 1 := by
  cases oa with
  | none =>
    rw [pcConsistentOn] at hcons
    have : l.filter (·.active) = [] := by
      rw [List.filter_eq_nil]
      intro p hp
      simp [hcons p hp]
    simp [this]
  | some a =>
    rw [pcConsistentOn] at hcons
    obtain ⟨-, -, hone⟩ := hcons
    have hsub : ((l.filter (·.active)).map (·.cid)).Nodup :=
      List.Nodup.sublist (List.Sublist.map _ (List.filter_sublist _)) hnd
    have hall : ∀ x ∈ (l.filter (·.active)).map (·.cid), x = a.cid := by
      intro x hx
      obtain ⟨p, hp, rfl⟩ := List.mem_map.mp hx
      have := List.mem_filter.mp hp
      exact hone p this.1 (by simpa using this.2)
    have := length_le_one_of_all_eq _ a.cid hsub hall
    simpa using this

theorem map_eq_self_of {α : Type} (l : List α) (f : α → α)
    (h : ∀ x ∈ l, f x = x) : l.map f = l := by
  induction l with
  | nil => rfl
  | cons a t ih =>
    rw [List.map_cons, h a (List.mem_cons_self _ _),
      ih (fun x hx => h x (List.mem_cons_of_mem _ hx))]

/-- C5: processing a new pointer constraint (with a fresh protocol handle)
preserves the single-active-constraint invariant: afterwards the active
singleton is consistent with the set, the handles stay distinct, and at
most one constraint is active; moreover, when the constraint's surface
holds pointer focus, the new constraint is the active one and every other
constraint — any previously active one included — is inactive. -/
theorem on_new_pointer_constraint_exclusive (st : CoreState)
    (cid surface windowWid : Nat) (rect : Int → Int → Bool)
    (hnd : (st.pointerConstraints.map (·.cid)).Nodup)
    (hfresh : cid ∉ st.pointerConstraints.map (·.cid))
    (hcons : pcConsistent st) :
    pcConsistent (on_new_pointer_constraint st cid surface windowWid rect)
    ∧ ((on_new_pointer_constraint st cid surface windowWid
          rect).pointerConstraints.map (·.cid)).Nodup
    ∧ activeCount (on_new_pointer_constraint st cid surface windowWid rect) ≤ 1
    ∧ (st.seat.pointerFocused = some surface →
        (on_new_pointer_constraint st cid surface windowWid
            rect).activePC.map (·.cid) = some cid
        ∧ ∀ p ∈ (on_new_pointer_constraint st cid surface windowWid
            rect).pointerConstraints, p.cid ≠ cid → p.active = false) := by
  have hchar : on_new_pointer_constraint st cid surface windowWid rect
      = (if st.seat.pointerFocused == some surface then
          pcEnable
            (disableActive
              { st with pointerConstraints := st.pointerConstraints
                  ++ [mkPC cid surface windowWid rect false] }
              st.activePC)
            (mkPC cid surface windowWid rect false)
        else
          { st with pointerConstraints := st.pointerConstraints
              ++ [mkPC cid surface windowWid rect false] }) :=
    rfl
  have hnodup1 : ((st.pointerConstraints
      ++ [mkPC cid surface windowWid rect false]).map (·.cid)).Nodup := by
    rw [List.map_append, List.nodup_append]
    refine ⟨hnd, by simp, ?_⟩
    intro x hx hx2
    simp only [List.map_cons, List.map_nil, List.mem_singleton, mkPC] at hx2
    subst hx2
    exact hfresh hx
  by_cases hfoc : (st.seat.pointerFocused == some surface) = true
  · -- focused: previously active constraint disabled, new one enabled
    cases hact : st.activePC with
    | none =>
      have hlistcons : ∀ p ∈ st.pointerConstraints, p.active = false := by
        have h0 := hcons
        rw [pcConsistent, hact, pcConsistentOn] at h0
        exact h0
      have hres : on_new_pointer_constraint st cid surface windowWid rect
          = pcEnable
              { st with pointerConstraints := st.pointerConstraints
                  ++ [mkPC cid surface windowWid rect false] }
              (mkPC cid surface windowWid rect false) := by
        rw [hchar, if_pos hfoc, hact, disableActive]
      have hmapf : (st.pointerConstraints
            ++ [mkPC cid surface windowWid rect false]).map
              (fun p => if p.cid == cid
                then mkPC cid surface windowWid rect true else p)
          = st.pointerConstraints ++ [mkPC cid surface windowWid rect true] := by
        rw [List.map_append]
        congr 1
        · apply map_eq_self_of
          intro p hp
          have hne : p.cid ≠ cid := fun h =>
            hfresh (h ▸ List.mem_map_of_mem _ hp)
          rw [if_neg (by simp [hne])]
        · simp [mkPC]
      have hlist : (on_new_pointer_constraint st cid surface windowWid
            rect).pointerConstraints
          = st.pointerConstraints ++ [mkPC cid surface windowWid rect true] := by
        rw [hres]
        show (st.pointerConstraints
            ++ [mkPC cid surface windowWid rect false]).map
              (fun p => if p.cid == cid
                then mkPC cid surface windowWid rect true else p)
          = _
        exact hmapf
      have hactive : (on_new_pointer_constraint st cid surface windowWid
            rect).activePC = some (mkPC cid surface windowWid rect true) := by
        rw [hres]
        rfl
      have hconsR : pcConsistent
          (on_new_pointer_constraint st cid surface windowWid rect) := by
        rw [pcConsistent, hactive, hlist, pcConsistentOn]
        refine ⟨by simp, rfl, ?_⟩
        intro p hp hpa
        rcases List.mem_append.mp hp with hp | hp
        · exact absurd hpa (by simp [hlistcons p hp])
        · simp only [List.mem_singleton] at hp
          subst hp
          rfl
      have hndR : ((on_new_pointer_constraint st cid surface windowWid
            rect).pointerConstraints.map (·.cid)).Nodup := by
        rw [hlist, List.map_append, List.nodup_append]
        refine ⟨hnd, by simp, ?_⟩
        intro x hx hx2
        simp only [List.map_cons, List.map_nil, List.mem_singleton, mkPC] at hx2
        subst hx2
        exact hfresh hx
      refine ⟨hconsR, hndR, ?_, ?_⟩
      · rw [activeCount]
        exact activeCountOn_le_one _ _ hndR hconsR
      · intro _
        refine ⟨by rw [hactive]; rfl, ?_⟩
        intro p hp hpne
        rw [hlist] at hp
        rcases List.mem_append.mp hp with hp | hp
        · exact hlistcons p hp
        · simp only [List.mem_singleton] at hp
          subst hp
          exact absurd rfl hpne
    | some a =>
      have hconsa := hcons
      rw [pcConsistent, hact, pcConsistentOn] at hconsa
      obtain ⟨hamem, haact, haone⟩ := hconsa
      have hcidne : cid ≠ a.cid := fun h =>
        hfresh (h ▸ List.mem_map_of_mem _ hamem)
      have hres : on_new_pointer_constraint st cid surface windowWid rect
          = pcEnable
              (pcDisable
                { st with pointerConstraints := st.pointerConstraints
                    ++ [mkPC cid surface windowWid rect false] }
                a.cid)
              (mkPC cid surface windowWid rect false) := by
        rw [hchar, if_pos hfoc, hact, disableActive]
      have hquiet : ∀ p ∈ (st.pointerConstraints.map fun p =>
          if p.cid == a.cid then { p with active := false } else p),
          p.active = false := by
        intro p hp
        obtain ⟨q, hq, rfl⟩ := List.mem_map.mp hp
        by_cases hqa : q.cid = a.cid
        · rw [if_pos (by simp [hqa])]
        · rw [if_neg (by simp [hqa])]
          by_cases hqact : q.active = true
          · exact absurd (haone q hq hqact) hqa
          · simpa using hqact
      have hgcid : ∀ q : PC,
          ((fun p => if p.cid == a.cid then { p with active := false } else p)
            q).cid = q.cid := by
        intro q
        show (if q.cid == a.cid
            then ({ q with active := false } : PC) else q).cid = q.cid
        by_cases hqa : q.cid = a.cid
        · rw [if_pos (by simp [hqa])]
        · rw [if_neg (by simp [hqa])]
      have hlist : (on_new_pointer_constraint st cid surface windowWid
            rect).pointerConstraints
          = (st.pointerConstraints.map fun p =>
              if p.cid == a.cid then { p with active := false } else p)
            ++ [mkPC cid surface windowWid rect true] := by
        rw [hres]
        show ((st.pointerConstraints
            ++ [mkPC cid surface windowWid rect false]).map
              (fun p => if p.cid == a.cid
                then { p with active := false } else p)).map
              (fun p => if p.cid == cid
                then mkPC cid surface windowWid rect true else p)
          = _
        rw [List.map_append, List.map_append]
        congr 1
        · apply map_eq_self_of
          intro p hp
          obtain ⟨q, hq, rfl⟩ := List.mem_map.mp hp
          have hne : q.cid ≠ cid := fun h =>
            hfresh (h ▸ List.mem_map_of_mem _ hq)
          rw [if_neg (by rw [hgcid q]; simp [hne])]
        · simp [mkPC, hcidne]
      have hactive : (on_new_pointer_constraint st cid surface windowWid
            rect).activePC = some (mkPC cid surface windowWid rect true) := by
        rw [hres]
        rfl
      have hconsR : pcConsistent
          (on_new_pointer_constraint st cid surface windowWid rect) := by
        rw [pcConsistent, hactive, hlist, pcConsistentOn]
        refine ⟨by simp, rfl, ?_⟩
        intro p hp hpa
        rcases List.mem_append.mp hp with hp | hp
        · exact absurd hpa (by simp [hquiet p hp])
        · simp only [List.mem_singleton] at hp
          subst hp
          rfl
      have hndR : ((on_new_pointer_constraint st cid surface windowWid
            rect).pointerConstraints.map (·.cid)).Nodup := by
        rw [hlist, List.map_append, List.nodup_append]
        have hmapg : (st.pointerConstraints.map fun p =>
            if p.cid == a.cid then { p with active := false } else p).map (·.cid)
            = st.pointerConstraints.map (·.cid) := by
          rw [List.map_map]
          apply List.map_congr_left
          intro q hq
          exact hgcid q
        rw [hmapg]
        refine ⟨hnd, by simp, ?_⟩
        intro x hx hx2
        simp only [List.map_cons, List.map_nil, List.mem_singleton, mkPC] at hx2
        subst hx2
        exact hfresh hx
      refine ⟨hconsR, hndR, ?_, ?_⟩
      · rw [activeCount]
        exact activeCountOn_le_one _ _ hndR hconsR
      · intro _
        refine ⟨by rw [hactive]; rfl, ?_⟩
        intro p hp hpne
        rw [hlist] at hp
        rcases List.mem_append.mp hp with hp | hp
        · exact hquiet p hp
        · simp only [List.mem_singleton] at hp
          subst hp
          exact absurd rfl hpne
  · -- not focused: the new constraint is only recorded, nothing is enabled
    have hres : on_new_pointer_constraint st cid surface windowWid rect
        = { st with pointerConstraints := st.pointerConstraints
            ++ [mkPC cid surface windowWid rect false] } := by
      rw [hchar, if_neg hfoc]
    have hfocne : st.seat.pointerFocused ≠ some surface := by
      intro h
      exact hfoc (by simp [h])
    have hconsR : pcConsistent
        (on_new_pointer_constraint st cid surface windowWid rect) := by
      rw [hres]
      cases hact : st.activePC with
      | none =>
        have hlistcons : ∀ p ∈ st.pointerConstraints, p.active = false := by
          have h0 := hcons
          rw [pcConsistent, hact, pcConsistentOn] at h0
          exact h0
        show pcConsistentOn
          (st.pointerConstraints ++ [mkPC cid surface windowWid rect false])
          none
        rw [pcConsistentOn]
        intro p hp
        rcases List.mem_append.mp hp with hp | hp
        · exact hlistcons p hp
        · simp only [List.mem_singleton] at hp
          subst hp
          rfl
      | some a =>
        have hconsa := hcons
        rw [pcConsistent, hact, pcConsistentOn] at hconsa
        obtain ⟨hamem, haact, haone⟩ := hconsa
        show pcConsistentOn
          (st.pointerConstraints ++ [mkPC cid surface windowWid rect false])
          (some a)
        rw [pcConsistentOn]
        refine ⟨List.mem_append_left _ hamem, haact, ?_⟩
        intro p hp hpa
        rcases List.mem_append.mp hp with hp | hp
        · exact haone p hp hpa
        · simp only [List.mem_singleton] at hp
          subst hp
          cases hpa
    have hndR : ((on_new_pointer_constraint st cid surface windowWid
          rect).pointerConstraints.map (·.cid)).Nodup := by
      rw [hres]
      exact hnodup1
    refine ⟨hconsR, hndR, ?_, ?_⟩
    · rw [activeCount]
      exact activeCountOn_le_one _ _ hndR hconsR
    · intro h
      exact absurd h hfocne

theorem on_new_pointer_constraint_exclusive_witness :
    pcConsistent (on_new_pointer_constraint exC4b 1 7 4 (fun _ _ => true))
    ∧ ((on_new_pointer_constraint exC4b 1 7 4
          (fun _ _ => true)).pointerConstraints.map (·.cid)).Nodup
    ∧ activeCount (on_new_pointer_constraint exC4b 1 7 4 (fun _ _ => true)) ≤ 1
    ∧ (exC4b.seat.pointerFocused = some 7 →
        (on_new_pointer_constraint exC4b 1 7 4
            (fun _ _ => true)).activePC.map (·.cid) = some 1
        ∧ ∀ p ∈ (on_new_pointer_constraint exC4b 1 7 4
            (fun _ _ => true)).pointerConstraints,
              p.cid ≠ 1 → p.active = false) :=
  on_new_pointer_constraint_exclusive exC4b 1 7 4 (fun _ _ => true)
    List.nodup_nil (List.not_mem_nil 1)
    (fun p hp => absurd hp (List.not_mem_nil p))

/-! ## `Core._output_manager_reconfigure` (core.py:687-735) and C2 -/

/-- The double-buffered state of a wlr output: `enable`, `set_mode`,
`set_custom_mode`, `set_transform` and `set_scale` stage into `pending`;
`commit` makes `pending` current; `rollback` discards `pending`. The
opaque mode/transform/scale values are modelled as identifiers. -/
structure OutState where
  enabled : Bool
  mode : Option Nat
  customMode : Nat × Nat × Nat
  transform : Nat
  scale : Nat
deriving DecidableEq, Repr

/-- A wlr output under the output manager: its identity, committed and
staged state, and the backend's black-box test of a staged state. -/
structure WlrOutput where
  oid : Nat
  current : OutState
  pending : OutState
  testOk : OutState → Bool

/-- One head of an output-configuration proposal
(`OutputConfigurationHeadV1.state`). -/
structure Head where
  oid : Nat
  enabled : Bool
  mode : Option Nat
  customMode : Nat × Nat × Nat
  x : Int
  y : Int
  transform : Nat
  scale : Nat
deriving DecidableEq, Repr

/-- The state `_output_manager_reconfigure` touches: the wlr outputs and
the output layout (position per output id, unique per output). -/
structure OMState where
  wlrOutputs : List WlrOutput
  layout : List (Nat × Int × Int)

/-- Apply `f` to the output with the given id (the others unchanged). -/
def updateOutput (os : List WlrOutput) (oid : Nat)
    (f : WlrOutput → WlrOutput) : List WlrOutput :=
  os.map fun o => if o.oid == oid then f o else o

/-- `OutputLayout.add`: moves an output already in the layout, adds it
otherwise. -/
def layoutAdd (l : List (Nat × Int × Int)) (oid : Nat) (x y : Int) :
    List (Nat × Int × Int) :=
  if l.any (·.1 == oid) then
    l.map (fun e => if e.1 == oid then (oid, x, y) else e)
  else l ++ [(oid, x, y)]

/-- `OutputLayout.remove`. -/
def layoutRemove (l : List (Nat × Int × Int)) (oid : Nat) :
    List (Nat × Int × Int) :=
  l.filter (·.1 ≠ oid)

/-- The `if not wlr_output.enabled: wlr_output.enable()` staging step. -/
def stageEnable (o : WlrOutput) : WlrOutput :=
  if !o.current.enabled then
    { o with pending := { o.pending with enabled := true } }
  else o

/-- The `set_mode` / `set_custom_mode` staging step. -/
def stageMode (h : Head) (o : WlrOutput) : WlrOutput :=
  match h.mode with
  | some m => { o with pending := { o.pending with mode := some m } }
  | none =>
    { o with pending :=
        { o.pending with mode := none, customMode := h.customMode } }

/-- The `set_transform` / `set_scale` staging step. -/
def stageFinal (h : Head) (o : WlrOutput) : WlrOutput :=
  { o with pending :=
      { o.pending with transform := h.transform, scale := h.scale } }

/-- The staging of an enabled head on its output. -/
def stageEnabled (h : Head) (o : WlrOutput) : WlrOutput :=
  stageFinal h (stageMode h (stageEnable o))

/-- The staging of a disabled head on its output
(`if wlr_output.enabled: wlr_output.enable(enable=False)`). -/
def stageDisabled (o : WlrOutput) : WlrOutput :=
  if o.current.enabled then
    { o with pending := { o.pending with enabled := false } }
  else o

/-- One iteration of the first loop of `_output_manager_reconfigure`
(without the test): stage the head's changes on its output, and move the
output inside the layout (`output_layout.add` for an enabled head,
`output_layout.remove` for a disabled one). The layout mutation happens
before `set_transform`/`set_scale` in the source; the two touch disjoint
state, so they are staged together here. -/
def stageHead (st : OMState) (h : Head) : OMState :=
  if h.enabled then
    { wlrOutputs := updateOutput st.wlrOutputs h.oid (stageEnabled h)
      layout := layoutAdd st.layout h.oid h.x h.y }
  else
    { wlrOutputs := updateOutput st.wlrOutputs h.oid stageDisabled
      layout := layoutRemove st.layout h.oid }

/-- `wlr_output.test()` on the head's output: the backend's verdict on the
staged state. -/
def testHead (st : OMState) (oid : Nat) : Bool :=
  match st.wlrOutputs.find? (·.oid == oid) with
  | some o => o.testOk o.pending
  | none => true

/-- The first loop of `_output_manager_reconfigure`: stage and test each
head in order, breaking on the first failed test; returns the staged state
and whether every processed head passed. -/
def stageHeads (st : OMState) : List Head → OMState × Bool
  | [] => (st, true)
  | h :: rest =>
    if testHead (stageHead st h) h.oid then stageHeads (stageHead st h) rest
    else (stageHead st h, false)

/-- `wlr_output.commit()`: the staged state becomes current. -/
def commitOutput (o : WlrOutput) : WlrOutput :=
  { o with current := o.pending }

/-- `wlr_output.rollback()`: the staged state is discarded. -/
def rollbackOutput (o : WlrOutput) : WlrOutput :=
  { o with pending := o.current }

/-- The per-head branch of the second loop: `commit()` when the proposal
is applied, `rollback()` otherwise. -/
def finishOutput (doCommit : Bool) (o : WlrOutput) : WlrOutput :=
  if doCommit then commitOutput o else rollbackOutput o

/-- The second loop of `_output_manager_reconfigure`: commit every head's
output when the whole proposal passed and the call applies, roll every
head's output back otherwise. -/
def finishHeads (doCommit : Bool) : OMState → List Head → OMState
  | st, [] => st
  | st, h :: rest =>
    finishHeads doCommit
      { st with wlrOutputs := updateOutput st.wlrOutputs h.oid (finishOutput doCommit) }
      rest

/-- `Core._output_manager_reconfigure`: stage-and-test all heads, then
commit all (only when every head passed and `apply` is set) or roll all
back; the returned flag is the success report sent to the client
(`send_succeeded` / `send_failed`). -/
def output_manager_reconfigure (st : OMState) (heads : List Head)
    (apply : Bool) : OMState × Bool :=
  (finishHeads ((stageHeads st heads).2 && apply) (stageHeads st heads).1
      heads,
    (stageHeads st heads).2)

theorem updateOutput_map_inv {β : Type} (g : WlrOutput → β)
    (os : List WlrOutput) (oid : Nat) (f : WlrOutput → WlrOutput)
    (hf : ∀ o, g (f o) = g o) :
    (updateOutput os oid f).map g = os.map g := by
  unfold updateOutput
  rw [List.map_map]
  apply List.map_congr_left
  intro o _
  show g (if o.oid == oid then f o else o) = g o
  by_cases h : (o.oid == oid) = true
  · rw [if_pos h]
    exact hf o
  · rw [if_neg h]

theorem stageEnabled_keep (h : Head) (o : WlrOutput) :
    (stageEnabled h o).oid = o.oid
      ∧ (stageEnabled h o).current = o.current := by
  unfold stageEnabled stageFinal stageMode stageEnable
  by_cases hc : (!o.current.enabled) = true
  · rw [if_pos hc]
    cases h.mode <;> exact ⟨rfl, rfl⟩
  · rw [if_neg hc]
    cases h.mode <;> exact ⟨rfl, rfl⟩

theorem stageDisabled_keep (o : WlrOutput) :
    (stageDisabled o).oid = o.oid
      ∧ (stageDisabled o).current = o.current := by
  unfold stageDisabled
  by_cases hc : o.current.enabled = true
  · rw [if_pos hc]
    exact ⟨rfl, rfl⟩
  · rw [if_neg hc]
    exact ⟨rfl, rfl⟩

theorem stageHead_currents (st : OMState) (h : Head) :
    (stageHead st h).wlrOutputs.map (fun o => (o.oid, o.current))
      = st.wlrOutputs.map (fun o => (o.oid, o.current)) := by
  unfold stageHead
  by_cases he : h.enabled = true
  · rw [if_pos he]
    exact updateOutput_map_inv _ _ _ _ (fun o => by
      have hk := stageEnabled_keep h o
      show ((stageEnabled h o).oid, (stageEnabled h o).current)
        = (o.oid, o.current)
      rw [hk.1, hk.2])
  · rw [if_neg he]
    exact updateOutput_map_inv _ _ _ _ (fun o => by
      have hk := stageDisabled_keep o
      show ((stageDisabled o).oid, (stageDisabled o).current)
        = (o.oid, o.current)
      rw [hk.1, hk.2])

theorem stageHeads_currents (heads : List Head) : ∀ st : OMState,
    (stageHeads st heads).1.wlrOutputs.map (fun o => (o.oid, o.current))
      = st.wlrOutputs.map (fun o => (o.oid, o.current)) := by
  induction heads with
  | nil => intro st; rfl
  | cons h rest ih =>
    intro st
    rw [stageHeads]
    by_cases ht : testHead (stageHead st h) h.oid = true
    · rw [if_pos ht, ih, stageHead_currents]
    · rw [if_neg ht]
      exact stageHead_currents st h

theorem finishHeads_rollback_currents (heads : List Head) : ∀ st : OMState,
    (finishHeads false st heads).wlrOutputs.map (fun o => (o.oid, o.current))
      = st.wlrOutputs.map (fun o => (o.oid, o.current)) := by
  induction heads with
  | nil => intro st; rfl
  | cons h rest ih =>
    intro st
    rw [finishHeads, ih]
    exact updateOutput_map_inv _ _ _ _ (fun o => rfl)

theorem finishHeads_any_eq (b : Bool) (heads : List Head) : ∀ st : OMState,
    ∀ o ∈ (finishHeads b st heads).wlrOutputs,
      ((heads.any (fun h => h.oid == o.oid)) = true →
        o.current = o.pending)
      ∧ ((heads.any (fun h => h.oid == o.oid)) = false →
        o ∈ st.wlrOutputs) := by
  have hF : ∀ q : WlrOutput,
      (finishOutput b q).current = (finishOutput b q).pending
      ∧ (finishOutput b q).oid = q.oid := by
    intro q
    cases b
    · exact ⟨rfl, rfl⟩
    · exact ⟨rfl, rfl⟩
  induction heads with
  | nil =>
    intro st o ho
    refine ⟨?_, fun _ => ho⟩
    intro hany
    cases hany
  | cons h rest ih =>
    intro st o ho
    rw [finishHeads] at ho
    have IH := ih _ o ho
    constructor
    · intro hany
      by_cases hr : (rest.any (fun h' => h'.oid == o.oid)) = true
      · exact IH.1 hr
      · have hh : (h.oid == o.oid) = true := by
          rw [List.any_cons] at hany
          cases hx : (h.oid == o.oid)
          · rw [hx] at hany
            rw [show rest.any (fun h' => h'.oid == o.oid) = false by
              simpa using hr] at hany
            cases hany
          · rfl
        have ho1 := IH.2 (by simpa using hr)
        unfold updateOutput at ho1
        obtain ⟨q, hq, hqe⟩ := List.mem_map.mp ho1
        by_cases hqh : (q.oid == h.oid) = true
        · rw [if_pos hqh] at hqe
          rw [← hqe]
          exact (hF q).1
        · rw [if_neg hqh] at hqe
          subst hqe
          exact absurd (beq_iff_eq.mpr (beq_iff_eq.mp hh).symm) hqh
    · intro hany
      rw [List.any_cons] at hany
      have hh : (h.oid == o.oid) = false := by
        cases hx : (h.oid == o.oid)
        · rfl
        · rw [hx] at hany
          cases hany
      have hr : (rest.any (fun h' => h'.oid == o.oid)) = false := by
        cases hx : rest.any (fun h' => h'.oid == o.oid)
        · rfl
        · rw [hx] at hany
          simp at hany
      have ho1 := IH.2 hr
      unfold updateOutput at ho1
      obtain ⟨q, hq, hqe⟩ := List.mem_map.mp ho1
      by_cases hqh : (q.oid == h.oid) = true
      · rw [if_pos hqh] at hqe
        have hoid : o.oid = q.oid := by rw [← hqe]; exact (hF q).2
        have hcontra : (h.oid == o.oid) = true := by
          rw [beq_iff_eq, hoid]
          exact (beq_iff_eq.mp hqh).symm
        rw [hh] at hcontra
        cases hcontra
      · rw [if_neg hqh] at hqe
        subst hqe
        exact hq

/-- C2 (amended): when any head fails the backend test — the call then
reports failure to the client — or when the call is a test (no apply),
every output's committed (current) enabled/mode/transform/scale state is
left unchanged, and every head's output has its staged state reset to its
committed state (all heads roll back). The second conjunct also shows
that commits, when they do happen, equalize staged and committed state
for every head's output. The output layout (position state) is NOT
restored by the rollback: see the counterexample. -/
theorem output_manager_reconfigure_spec (st : OMState) (heads : List Head)
    (apply : Bool)
    (hfail : (output_manager_reconfigure st heads apply).2 = false
      ∨ apply = false) :
    (output_manager_reconfigure st heads apply).1.wlrOutputs.map
        (fun o => (o.oid, o.current))
      = st.wlrOutputs.map (fun o => (o.oid, o.current))
    ∧ ∀ o ∈ (output_manager_reconfigure st heads apply).1.wlrOutputs,
        (heads.any (fun h => h.oid == o.oid)) = true →
          o.current = o.pending := by
  have hok : (output_manager_reconfigure st heads apply).2
      = (stageHeads st heads).2 := rfl
  have hb : ((stageHeads st heads).2 && apply) = false := by
    rcases hfail with h | h
    · rw [hok] at h
      rw [h]
      rfl
    · rw [h]
      exact Bool.and_false _
  have hst : (output_manager_reconfigure st heads apply).1
      = finishHeads false (stageHeads st heads).1 heads := by
    show finishHeads ((stageHeads st heads).2 && apply)
        (stageHeads st heads).1 heads = _
    rw [hb]
  constructor
  · rw [hst, finishHeads_rollback_currents, stageHeads_currents]
  · intro o ho hany
    rw [hst] at ho
    exact (finishHeads_any_eq false heads _ o ho).1 hany

/-- A concrete wlr output at layout position (0, 0) whose backend rejects
every staged state. -/
def exOut2 : WlrOutput :=
  { oid := 0
    current := { enabled := true, mode := some 0, customMode := (0, 0, 0)
                 transform := 0, scale := 1 }
    pending := { enabled := true, mode := some 0, customMode := (0, 0, 0)
                 transform := 0, scale := 1 }
    testOk := fun _ => false }

/-- A concrete output-manager state holding `exOut2`. -/
def exOM : OMState := { wlrOutputs := [exOut2], layout := [(0, 0, 0)] }

/-- A head proposing to move output 0 to x = 5 with mode 1. -/
def exHead2 : Head :=
  { oid := 0, enabled := true, mode := some 1, customMode := (0, 0, 0)
    x := 5, y := 0, transform := 0, scale := 1 }

/-- C2, counterexample to the claim as stated: the proposal fails the
backend test (failure is reported), yet the output's layout position has
observably moved from (0, 0) to (5, 0) — the `output_layout.add` performed
while staging is not rolled back, so a rejected configuration is not free
of observable changes. -/
theorem output_manager_reconfigure_cex :
    (output_manager_reconfigure exOM [exHead2] true).2 = false
    ∧ exOM.layout = [(0, 0, 0)]
    ∧ (output_manager_reconfigure exOM [exHead2] true).1.layout = [(0, 5, 0)]
    ∧ (output_manager_reconfigure exOM [exHead2] true).1.layout
      ≠ exOM.layout := by
  refine ⟨rfl, rfl, rfl, ?_⟩
  decide

theorem output_manager_reconfigure_spec_witness :
    (output_manager_reconfigure exOM [exHead2] true).1.wlrOutputs.map
        (fun o => (o.oid, o.current))
      = exOM.wlrOutputs.map (fun o => (o.oid, o.current))
    ∧ ∀ o ∈ (output_manager_reconfigure exOM [exHead2] true).1.wlrOutputs,
        (([exHead2] : List Head).any (fun h => h.oid == o.oid)) = true →
          o.current = o.pending :=
  output_manager_reconfigure_spec exOM [exHead2] true (Or.inl rfl)

/-- A concrete output with empty layer lists. -/
def exO9 : COutput := { oid := 0, layers := ⟨[], [], [], []⟩ }

/-- A concrete core state whose only output, the current one, is `exO9`. -/
def exC9 : CoreState :=
  { exC4 with
    outputs := [exO9]
    currentOutput := some exO9
    outputLayout := [(0, 0, 0)] }

theorem remove_output_spec_witness :
    (∀ p ∈ (remove_output exC9 exO9).outputs, p.oid ≠ exO9.oid)
    ∧ (∀ e ∈ (remove_output exC9 exO9).outputLayout, e.1 ≠ exO9.oid)
    ∧ (∀ c, (remove_output exC9 exO9).currentOutput = some c →
        c.oid ≠ exO9.oid)
    ∧ (∀ c, exC9.currentOutput = some c → c.oid = exO9.oid →
        (remove_output exC9 exO9).currentOutput
            = (removedOutputs exC9 exO9).head?
        ∧ (remove_output exC9 exO9).stackedWindows
            = composited (remove_output exC9 exO9).currentOutput
                exC9.mappedWindows)
    ∧ (∀ c, exC9.currentOutput = some c → c.oid ≠ exO9.oid →
        (remove_output exC9 exO9).currentOutput = some c
        ∧ (remove_output exC9 exO9).stackedWindows = exC9.stackedWindows)
    ∧ (exC9.currentOutput = none →
        (remove_output exC9 exO9).currentOutput = none
        ∧ (remove_output exC9 exO9).stackedWindows = exC9.stackedWindows) :=
  remove_output_spec exC9 exO9 (List.mem_singleton.mpr rfl) (by decide)

end Wl
